import Mathlib

/-!
Verification of the wikipedia-npov-classifier feature-extraction pipeline.

The TypeScript source (src/train.ts and the unnamed CLI module) is shallowly
embedded here.  JavaScript numbers are idealised as exact rationals (ℚ);
theJS special values that the code can actually produce are modelled by the
inductive type `JsVal`:
  * `NaN` arises from the 0/0 divisions in the statistics engine,
  * `undefined` arises from out-of-bounds array indexing,
  * `null` is the `diff` field default,
  * `Math.sqrt` of a non-perfect-square rational is represented symbolically
    by `JsVal.sqrtIrr q` (meaning: the irrational real √q); this is faithful
    for equality comparisons because √ is injective on nonnegative reals.
Stateful aspects (the in-place `Array.sort`, the memoisation cache, elapsed
`setTimeout` waits, the number of network calls) are made explicit by
returning them as extra components.  Network endpoints are modelled as
oracles (functions from the attempt index to the response received).
-/

namespace Npov

/-- A JavaScript runtime value as produced by the numeric pipeline. -/
inductive JsVal where
  | num (q : ℚ)
  | sqrtIrr (q : ℚ)
  | nan
  | undef
  | nullv
  | str (s : String)
deriving DecidableEq, Repr

/-- Digit-by-digit integer square root with explicit fuel (structural
recursion of logarithmic depth, so the kernel can evaluate it, unlike
`Nat.sqrt`). -/
def isqrtAux : ℕ → ℕ → ℕ
  | 0, _ => 0
  | fuel + 1, n =>
    if n ≤ 1 then n
    else
      let r := 2 * isqrtAux fuel (n / 4)
      if (r + 1) * (r + 1) ≤ n then r + 1 else r

/-- Kernel-computable natural square root (floor). -/
def natSqrt (n : ℕ) : ℕ := isqrtAux n n

/-- Exact rational square root, when `q` is a perfect square of a rational. -/
def ratSqrt? (q : ℚ) : Option ℚ :=
  let a := q.num.toNat
  let b := q.den
  let sa := natSqrt a
  let sb := natSqrt b
  if sa * sa = a ∧ sb * sb = b then some ((sa : ℚ) / (sb : ℚ)) else none

/-- `Math.sqrt` on the idealised values: negative inputs and non-numbers give
`NaN`; perfect squares evaluate exactly; other nonnegative rationals are kept
symbolically as `sqrtIrr`. -/
def jsSqrt : JsVal → JsVal
  | JsVal.num q =>
      if q < 0 then JsVal.nan
      else match ratSqrt? q with
        | some r => JsVal.num r
        | none => JsVal.sqrtIrr q
  | _ => JsVal.nan

/-- JavaScript array indexing: out of bounds gives `undefined`. -/
def jsGet (l : List ℚ) (i : ℕ) : JsVal :=
  match l[i]? with
  | some x => JsVal.num x
  | none => JsVal.undef

/-- The five fields computed by `extractDistributionStatistics`. -/
structure DistStats where
  average : JsVal
  median : JsVal
  q1 : JsVal
  q3 : JsVal
  stdDev : JsVal
deriving DecidableEq, Repr

/-- src/train.ts lines 585-601.  The function sorts `nums` IN PLACE
(`nums.sort(...)` mutates its receiver), so the model returns the post-call
state of the caller's array as the second component.  `average` is
`reduce(+,0)/length`, which is `NaN` (0/0) on an empty sample; `stdDev` is
`sqrt(Σ(x-average)²/length)`; median/quartiles index the sorted array at
`floor(n/2)`, `floor(n/4)`, `floor(3n/4)` (yielding `undefined` when the
sample is empty).  The second `reduce` runs over the already-sorted array,
which over ℚ has the same sum. -/
def extractDistributionStatistics (nums : List ℚ) : DistStats × List ℚ :=
  let n := nums.length
  let avgSum := nums.foldl (· + ·) 0
  let average : JsVal := if n = 0 then JsVal.nan else JsVal.num (avgSum / n)
  let sortedNums := nums.insertionSort (· ≤ ·)
  let median := jsGet sortedNums (n / 2)
  let q1 := jsGet sortedNums (n / 4)
  let q3 := jsGet sortedNums (n * 3 / 4)
  let varSum := sortedNums.foldl (fun acc x => acc + (x - avgSum / n) ^ 2) 0
  let stdDev := jsSqrt (if n = 0 then JsVal.nan else JsVal.num (varSum / n))
  (⟨average, median, q1, q3, stdDev⟩, sortedNums)

/-- src/train.ts lines 603-605: `nums.slice(1).map((num, ind) => num - nums[ind])`. -/
def differences (nums : List ℚ) : List ℚ :=
  (nums.drop 1).zipWith (· - ·) nums

/-- src/train.ts lines 407-414: one historical revision record. -/
structure Revision where
  revisionUrl : String
  articleUrl : String
  userName : String
  userId : ℤ
  timestamp : ℚ
  diff : Option String
deriving DecidableEq, Repr

/-- One entry of a `query.pages[..].revisions` array of the upstream API
(`rvprop=ids|timestamp|user|userid`).  The timestamp is already converted to
its numeric value (`new Date(..).getTime() / 1000`). -/
structure ApiRev where
  revid : ℕ
  user : String
  userid : ℤ
  timestamp : ℚ
deriving DecidableEq, Repr

/-- src/train.ts line 417: the global diff-fetching toggle, `false` in source. -/
def getDiffs : Bool := false

/-- The revision record built in the loop of src/train.ts lines 508-517
(`encodeURIComponent` modelled as the identity on our plain titles). -/
def toRevision (title : String) (r : ApiRev) : Revision :=
  { revisionUrl := "https://en.wikipedia.org/w/index.php?title=" ++ title
      ++ "&oldid=" ++ toString r.revid
  , articleUrl := "https://en.wikipedia.org/wiki/" ++ title
  , userName := r.user
  , userId := r.userid
  , timestamp := r.timestamp
  , diff := none }

/-- src/train.ts lines 490-533, `fetchPastRevisions`.  The upstream endpoint
is modelled as the list of successive response pages (each a `revisions`
array; a continuation marker is present exactly while further pages remain).
Each recursion level appends the recursive (already reversed) result to the
current page, reverses the whole accumulated list, and — since `getDiffs` is
`false` — mutates index 0 to carry the diff fetched for the *original*
`revisionUrl` (the same `fetchDiffFromUrl(revisionUrl)` text at every level,
passed here as `diffText`).  `none` models the `TypeError` thrown by
`revisions[0].diff = ...` when the array is empty. -/
def fetchPastRevisions (title : String) (diffText : String) :
    List (List ApiRev) → Option (List Revision)
  | [] => some []
  | page :: rest =>
    let revs := page.map (toRevision title)
    match (if rest.isEmpty then some [] else fetchPastRevisions title diffText rest) with
    | none => none
    | some tailRevs =>
      let all := (revs ++ tailRevs).reverse
      if getDiffs then some all
      else
        match all with
        | [] => none
        | r0 :: rs => some ({ r0 with diff := some diffText } :: rs)

/-- src/train.ts lines 570-582: `reduce` of consecutive timestamp gaps
(skipping index 0) divided by the *number of revisions* (not gaps); `0` for
histories shorter than 2. -/
def calculateAverageTimeBetweenRevisions (revisions : List Revision) : ℚ :=
  if revisions.length < 2 then 0
  else (differences (revisions.map (fun r => r.timestamp))).sum / revisions.length

/-- JS string-or-null value (the `diff` field). -/
def jsOfOptStr : Option String → JsVal
  | some s => JsVal.str s
  | none => JsVal.nullv

/-- The five named fields the statistics object literal of src/train.ts lines
592-598 spreads into the feature record, in source order. -/
def extractDistributionStatisticsNamed (baseFeatureName : String) (nums : List ℚ) :
    List (String × JsVal) :=
  let s := (extractDistributionStatistics nums).1
  [(baseFeatureName ++ "Average", s.average),
   (baseFeatureName ++ "Median", s.median),
   (baseFeatureName ++ "Q1", s.q1),
   (baseFeatureName ++ "Q3", s.q3),
   (baseFeatureName ++ "StdDev", s.stdDev)]

/-- src/train.ts lines 607-642, `extractFeatures`, as a function of the
fetched history (the result of `fetchPastRevisions`) and of the score
returned by `fetchRevertRiskScore(thisRevision.userId)` (which the source
calls with the *user* id — §9 of the spec).  The feature record is the JS
object literal in source key order, modelled as an association list.  On an
empty history `pastRevisions[0]` is `undefined` and the subsequent
`thisRevision.userId` access throws a `TypeError`: modelled as `none`.
(The source computes the same-author filter twice, lines 622-623, with the
same result.) -/
def extractFeatures (pastRevisions : List Revision) (revertRiskModelScore : JsVal) :
    Option (List (String × JsVal)) :=
  match pastRevisions with
  | [] => none
  | thisRevision :: restRevisions =>
    let pastRevs := thisRevision :: restRevisions
    let pastRevisionsCount : ℕ := pastRevs.length
    let timesBetweenRevisions :=
      (differences (pastRevs.map (fun r => r.timestamp))).reverse
    let userRevisions := pastRevs.filter (fun r => r.userId == thisRevision.userId)
    let timesBetweenUserRevisions :=
      (differences (userRevisions.map (fun r => r.timestamp))).reverse
    let timesBetweenRevisionsStats :=
      extractDistributionStatisticsNamed "timeBetweenRevisions" timesBetweenRevisions
    let timesBetweenUserRevisionsStats :=
      extractDistributionStatisticsNamed "timeBetweenUserRevisions" timesBetweenUserRevisions
    let averageTimeBetweenRevisions := calculateAverageTimeBetweenRevisions pastRevs
    let pastRevisionsAuthoredByUser : ℕ := userRevisions.length
    let averageTimeBetweenUserAuthoredRevisions :=
      calculateAverageTimeBetweenRevisions userRevisions
    let percPastRevisionsAuthored : ℚ :=
      (pastRevisionsAuthoredByUser : ℚ) / (pastRevisionsCount : ℚ)
    some ([("authorUserName", JsVal.str thisRevision.userName),
      ("pastRevisionsCount", JsVal.num pastRevisionsCount),
      ("averageTimeBetweenRevisions", JsVal.num averageTimeBetweenRevisions),
      ("pastRevisionsAuthoredByUser", JsVal.num pastRevisionsAuthoredByUser),
      ("revertRiskModelScore", revertRiskModelScore),
      ("percPastRevisionsAuthored", JsVal.num percPastRevisionsAuthored),
      ("averageTimeBetweenUserAuthoredRevisions",
        JsVal.num averageTimeBetweenUserAuthoredRevisions),
      ("diffText", jsOfOptStr thisRevision.diff)]
      ++ timesBetweenRevisionsStats ++ timesBetweenUserRevisionsStats)

/-- The fixed feature-record field names, in source order. -/
def featureRecordKeys : List String :=
  ["authorUserName", "pastRevisionsCount", "averageTimeBetweenRevisions",
   "pastRevisionsAuthoredByUser", "revertRiskModelScore", "percPastRevisionsAuthored",
   "averageTimeBetweenUserAuthoredRevisions", "diffText",
   "timeBetweenRevisionsAverage", "timeBetweenRevisionsMedian", "timeBetweenRevisionsQ1",
   "timeBetweenRevisionsQ3", "timeBetweenRevisionsStdDev",
   "timeBetweenUserRevisionsAverage", "timeBetweenUserRevisionsMedian",
   "timeBetweenUserRevisionsQ1", "timeBetweenUserRevisionsQ3",
   "timeBetweenUserRevisionsStdDev"]

/-! ### Helper lemmas for the statistics engine -/

theorem foldl_add_eq (l : List ℚ) : ∀ a : ℚ, l.foldl (· + ·) a = a + l.sum := by
  induction l with
  | nil => intro a; simp
  | cons x xs ih => intro a; simp [ih (a + x), add_assoc]

theorem foldl_add_map_eq (g : ℚ → ℚ) (l : List ℚ) :
    ∀ a : ℚ, l.foldl (fun acc x => acc + g x) a = a + (l.map g).sum := by
  induction l with
  | nil => intro a; simp
  | cons x xs ih => intro a; simp [ih (a + g x), add_assoc]

theorem jsGet_eq_getD (l : List ℚ) (i : ℕ) (h : i < l.length) :
    jsGet l i = JsVal.num (l.getD i 0) := by
  simp [jsGet, List.getElem?_eq_getElem h, List.getD_eq_getElem?_getD]

theorem natSqrt25 : natSqrt 25 = 5 := by decide

theorem natSqrt625 : natSqrt 625 = 25 := by decide

theorem natSqrt0 : natSqrt 0 = 0 := by decide

theorem natSqrt1 : natSqrt 1 = 1 := by decide

theorem intToNat25 : Int.toNat 25 = 25 := by decide

theorem intToNat625 : Int.toNat 625 = 625 := by decide

theorem intToNat0 : Int.toNat 0 = 0 := by decide

theorem intToNat1 : Int.toNat 1 = 1 := by decide

/-- Claim C4: for every non-empty numeric sample, `extractDistributionStatistics`
returns `average` equal to the arithmetic mean, `median`, `q1` and `q3` equal to
the elements at positions `⌊n/2⌋`, `⌊n/4⌋` and `⌊3n/4⌋` of the ascending-sorted
sample (positional, not interpolated), and `stdDev` equal to the population
standard deviation (square root of the mean-square deviation, dividing by `n`,
not `n − 1`). -/
theorem C4_distribution_statistics_spec (nums ys : List ℚ) (hne : nums ≠ [])
    (hperm : nums.Perm ys) (hsort : ys.Sorted (· ≤ ·)) :
    (extractDistributionStatistics nums).1.average
        = JsVal.num (nums.sum / nums.length)
    ∧ (extractDistributionStatistics nums).1.median
        = JsVal.num (ys.getD (nums.length / 2) 0)
    ∧ (extractDistributionStatistics nums).1.q1
        = JsVal.num (ys.getD (nums.length / 4) 0)
    ∧ (extractDistributionStatistics nums).1.q3
        = JsVal.num (ys.getD (nums.length * 3 / 4) 0)
    ∧ (extractDistributionStatistics nums).1.stdDev
        = jsSqrt (JsVal.num
            ((nums.map (fun x => (x - nums.sum / nums.length) ^ 2)).sum / nums.length)) := by
  have hys : nums.insertionSort (· ≤ ·) = ys :=
    List.eq_of_perm_of_sorted ((List.perm_insertionSort _ nums).trans hperm)
      (List.sorted_insertionSort _ nums) hsort
  have hlen : 0 < nums.length := List.length_pos.mpr hne
  have hylen : ys.length = nums.length := hperm.length_eq.symm
  have hmed : nums.length / 2 < ys.length := by rw [hylen]; omega
  have hq1 : nums.length / 4 < ys.length := by rw [hylen]; omega
  have hq3 : nums.length * 3 / 4 < ys.length := by rw [hylen]; omega
  have hne0 : nums.length ≠ 0 := by omega
  have hsum : ys.foldl (fun acc x => acc + (x - nums.sum / nums.length) ^ 2) 0
      = (nums.map (fun x => (x - nums.sum / nums.length) ^ 2)).sum := by
    rw [foldl_add_map_eq, zero_add]
    exact ((hperm.map _).sum_eq).symm
  simp only [extractDistributionStatistics, hys, hne0, foldl_add_eq, zero_add, hsum,
    if_false, ite_false, jsGet_eq_getD _ _ hmed, jsGet_eq_getD _ _ hq1,
    jsGet_eq_getD _ _ hq3]
  and_intros <;> trivial

/-- Witness for C4 at the concrete sample `[10, 0]` (sorted: `[0, 10]`). -/
theorem C4_distribution_statistics_spec_witness :
    (([10, 0] : List ℚ) ≠ [] ∧ ([10, 0] : List ℚ).Perm [0, 10]
      ∧ ([0, 10] : List ℚ).Sorted (· ≤ ·))
    ∧ (extractDistributionStatistics [10, 0]).1.average = JsVal.num 5
    ∧ (extractDistributionStatistics [10, 0]).1.median = JsVal.num 10
    ∧ (extractDistributionStatistics [10, 0]).1.q1 = JsVal.num 0
    ∧ (extractDistributionStatistics [10, 0]).1.q3 = JsVal.num 10
    ∧ (extractDistributionStatistics [10, 0]).1.stdDev = JsVal.num 5 := by
  have hne : ([10, 0] : List ℚ) ≠ [] := by simp
  have hperm : ([10, 0] : List ℚ).Perm [0, 10] := List.Perm.swap 0 10 []
  have hsort : ([0, 10] : List ℚ).Sorted (· ≤ ·) := by
    simp [List.sorted_cons]
  obtain ⟨h1, h2, h3, h4, h5⟩ :=
    C4_distribution_statistics_spec [10, 0] [0, 10] hne hperm hsort
  refine ⟨⟨hne, hperm, hsort⟩, ?_, ?_, ?_, ?_, ?_⟩
  · rw [h1]; norm_num
  · rw [h2]; norm_num
  · rw [h3]; norm_num
  · rw [h4]; norm_num
  · rw [h5]; norm_num [jsSqrt, ratSqrt?, natSqrt25, natSqrt1, intToNat25]

/-- Claim C5: `extractDistributionStatistics` never raises on degenerate
samples: for a singleton sample every positional statistic and the average
equal the single element and `stdDev = 0`; for the empty sample `average` and
`stdDev` are `NaN` (the positional fields are `undefined`). -/
theorem C5_distribution_statistics_degenerate :
    (∀ x : ℚ, (extractDistributionStatistics [x]).1
        = ⟨JsVal.num x, JsVal.num x, JsVal.num x, JsVal.num x, JsVal.num 0⟩)
    ∧ (extractDistributionStatistics []).1.average = JsVal.nan
    ∧ (extractDistributionStatistics []).1.stdDev = JsVal.nan := by
  refine ⟨fun x => ?_, rfl, rfl⟩
  norm_num [extractDistributionStatistics, jsGet, jsSqrt, ratSqrt?, natSqrt1, natSqrt0,
    intToNat0, intToNat1, List.insertionSort, List.orderedInsert]

/-- Claim C9: `extractDistributionStatistics` sorts the caller's array in
place: the post-call state of the argument array (second component of the
model) is the ascending sort of the input — a permutation of the input,
sorted ascending — and, e.g. for `[2, 1]`, differs from the original order. -/
theorem C9_distribution_statistics_sorts_in_place :
    (∀ nums : List ℚ, (extractDistributionStatistics nums).2.Perm nums
      ∧ (extractDistributionStatistics nums).2.Sorted (· ≤ ·))
    ∧ (extractDistributionStatistics [2, 1]).2 = [1, 2]
    ∧ ([2, 1] : List ℚ) ≠ [1, 2] := by
  refine ⟨fun nums => ⟨List.perm_insertionSort _ nums, List.sorted_insertionSort _ nums⟩, ?_, ?_⟩
  · norm_num [extractDistributionStatistics, List.insertionSort, List.orderedInsert]
  · simp

/-- Claim C1 (code-bug evaluation): with the upstream API returning revisions
newest-first per page, `fetchPastRevisions` does NOT return a newest-first
sequence.  For a single page with timestamps 250 (newest) then 0, the result
is `[0, 250]` — index 0 carries the smallest timestamp, contradicting the
source comment "reverse the order to have the current revision at index 0" —
and the timestamps are not non-increasing; for two pages the result
`[50, 0, 100, 250]` is not even monotone (each recursion level re-reverses
the accumulated list). -/
theorem C1_fetchPastRevisions_order_bug :
    ((fetchPastRevisions "T" "d" [[⟨2, "A", 1, 250⟩, ⟨1, "A", 1, 0⟩]]).map
        (fun l => l.map (fun r => r.timestamp)) = some [0, 250])
    ∧ ¬ List.Chain' (fun a b : ℚ => b ≤ a) [0, 250]
    ∧ ((fetchPastRevisions "T" "d"
          [[⟨4, "A", 1, 250⟩, ⟨3, "A", 1, 100⟩], [⟨2, "A", 1, 50⟩, ⟨1, "A", 1, 0⟩]]).map
        (fun l => l.map (fun r => r.timestamp)) = some [50, 0, 100, 250]) := by
  refine ⟨by norm_num [fetchPastRevisions, toRevision, getDiffs], ?_,
    by norm_num [fetchPastRevisions, toRevision, getDiffs]⟩
  norm_num [List.chain'_cons]

/-- Counterexample to claim C2 as stated: on an empty history (zero
revisions) `extractFeatures` does not return a record at all — the
`thisRevision.userId` access on `pastRevisions[0] = undefined` throws a
`TypeError`, modelled as `none`. -/
theorem C2_extractFeatures_empty_history_counterexample :
    extractFeatures [] (JsVal.num 0) = none := rfl

/-- The feature record computed for a one-revision history, in full. -/
theorem extractFeatures_singleton (r : Revision) (risk : JsVal) :
    extractFeatures [r] risk = some [("authorUserName", JsVal.str r.userName),
      ("pastRevisionsCount", JsVal.num 1),
      ("averageTimeBetweenRevisions", JsVal.num 0),
      ("pastRevisionsAuthoredByUser", JsVal.num 1),
      ("revertRiskModelScore", risk),
      ("percPastRevisionsAuthored", JsVal.num 1),
      ("averageTimeBetweenUserAuthoredRevisions", JsVal.num 0),
      ("diffText", jsOfOptStr r.diff),
      ("timeBetweenRevisionsAverage", JsVal.nan),
      ("timeBetweenRevisionsMedian", JsVal.undef),
      ("timeBetweenRevisionsQ1", JsVal.undef),
      ("timeBetweenRevisionsQ3", JsVal.undef),
      ("timeBetweenRevisionsStdDev", JsVal.nan),
      ("timeBetweenUserRevisionsAverage", JsVal.nan),
      ("timeBetweenUserRevisionsMedian", JsVal.undef),
      ("timeBetweenUserRevisionsQ1", JsVal.undef),
      ("timeBetweenUserRevisionsQ3", JsVal.undef),
      ("timeBetweenUserRevisionsStdDev", JsVal.nan)] := by
  norm_num [extractFeatures, extractDistributionStatisticsNamed, extractDistributionStatistics,
    calculateAverageTimeBetweenRevisions, differences, jsGet, jsSqrt,
    List.insertionSort, List.orderedInsert]
  decide

/-- Claim C2 (amended): for every history with exactly ONE revision,
`extractFeatures` does not throw and returns a record with the fixed field
set, `averageTimeBetweenRevisions = 0`, and the distribution statistics
degraded to `NaN` (average, stdDev) and `undefined` (median, quartiles) over
the empty gap samples.  (On a ZERO-revision history it throws instead — see
the counterexample.) -/
theorem C2_extractFeatures_single_revision (r : Revision) (risk : JsVal) :
    ((extractFeatures [r] risk).map (fun l => l.map Prod.fst) = some featureRecordKeys)
    ∧ (extractFeatures [r] risk).bind (List.lookup "averageTimeBetweenRevisions")
        = some (JsVal.num 0)
    ∧ (extractFeatures [r] risk).bind (List.lookup "pastRevisionsCount")
        = some (JsVal.num 1)
    ∧ (extractFeatures [r] risk).bind (List.lookup "percPastRevisionsAuthored")
        = some (JsVal.num 1)
    ∧ (extractFeatures [r] risk).bind (List.lookup "timeBetweenRevisionsAverage")
        = some JsVal.nan
    ∧ (extractFeatures [r] risk).bind (List.lookup "timeBetweenRevisionsMedian")
        = some JsVal.undef
    ∧ (extractFeatures [r] risk).bind (List.lookup "timeBetweenRevisionsQ1")
        = some JsVal.undef
    ∧ (extractFeatures [r] risk).bind (List.lookup "timeBetweenRevisionsQ3")
        = some JsVal.undef
    ∧ (extractFeatures [r] risk).bind (List.lookup "timeBetweenRevisionsStdDev")
        = some JsVal.nan
    ∧ (extractFeatures [r] risk).bind (List.lookup "timeBetweenUserRevisionsAverage")
        = some JsVal.nan
    ∧ (extractFeatures [r] risk).bind (List.lookup "timeBetweenUserRevisionsMedian")
        = some JsVal.undef
    ∧ (extractFeatures [r] risk).bind (List.lookup "timeBetweenUserRevisionsQ1")
        = some JsVal.undef
    ∧ (extractFeatures [r] risk).bind (List.lookup "timeBetweenUserRevisionsQ3")
        = some JsVal.undef
    ∧ (extractFeatures [r] risk).bind (List.lookup "timeBetweenUserRevisionsStdDev")
        = some JsVal.nan := by
  rw [extractFeatures_singleton]
  and_intros <;> simp [featureRecordKeys, List.lookup]

/-- Claim C3: the end-to-end scenario — a history of three revisions all by
user `"A"` (userid 7) at timestamps 0, 100, 250 (one API page, newest
first).  The assembled feature record has `pastRevisionsCount = 3`,
`pastRevisionsAuthoredByUser = 3`, `percPastRevisionsAuthored = 1`,
`averageTimeBetweenRevisions = (100 + 150)/3 = 250/3` and every
`timeBetweenRevisions*` / `timeBetweenUserRevisions*` statistic computed
over the gap sample `{100, 150}` (average 125, median 150, q1 100, q3 150,
stdDev 25). -/
theorem C3_extractFeatures_three_revisions_one_user :
    ((fetchPastRevisions "T" "d" [[⟨3, "A", 7, 250⟩, ⟨2, "A", 7, 100⟩, ⟨1, "A", 7, 0⟩]]).bind
      (fun h => extractFeatures h (JsVal.num 0)))
    = some [("authorUserName", JsVal.str "A"),
      ("pastRevisionsCount", JsVal.num 3),
      ("averageTimeBetweenRevisions", JsVal.num (250 / 3)),
      ("pastRevisionsAuthoredByUser", JsVal.num 3),
      ("revertRiskModelScore", JsVal.num 0),
      ("percPastRevisionsAuthored", JsVal.num 1),
      ("averageTimeBetweenUserAuthoredRevisions", JsVal.num (250 / 3)),
      ("diffText", JsVal.str "d"),
      ("timeBetweenRevisionsAverage", JsVal.num 125),
      ("timeBetweenRevisionsMedian", JsVal.num 150),
      ("timeBetweenRevisionsQ1", JsVal.num 100),
      ("timeBetweenRevisionsQ3", JsVal.num 150),
      ("timeBetweenRevisionsStdDev", JsVal.num 25),
      ("timeBetweenUserRevisionsAverage", JsVal.num 125),
      ("timeBetweenUserRevisionsMedian", JsVal.num 150),
      ("timeBetweenUserRevisionsQ1", JsVal.num 100),
      ("timeBetweenUserRevisionsQ3", JsVal.num 150),
      ("timeBetweenUserRevisionsStdDev", JsVal.num 25)] := by
  norm_num [fetchPastRevisions, toRevision, getDiffs, extractFeatures,
    extractDistributionStatisticsNamed, extractDistributionStatistics,
    calculateAverageTimeBetweenRevisions, differences, jsGet, jsSqrt, ratSqrt?,
    jsOfOptStr, natSqrt625, natSqrt1, intToNat625, intToNat1, List.cons_ne_nil,
    List.insertionSort, List.orderedInsert]
  decide

/-! ### Risk scorer (src/train.ts lines 451-488) -/

/-- One response observed by an attempt of `fetchRevertRiskScore`: an HTTP
429 rate-limit status, a well-shaped `ok` response carrying
`data.output.probabilities.true`, or any other failure (network error, body
parse error, missing fields) — the latter are all caught by the `catch`
block of the loop. -/
inductive RiskResponse where
  | rateLimited
  | ok (score : ℚ)
  | err
deriving DecidableEq, Repr

/-- The retry loop of `fetchRevertRiskScore`: `retryCount` is the loop
counter (3 at entry), `attempt` indexes the oracle.  Returns the score and
the total `setTimeout` wait in seconds: 10 s are waited after a rate-limited
attempt, none after other failures.  When the counter reaches 0 the safe
default 0 is returned; no exception escapes the loop. -/
def fetchRevertRiskScoreGo (oracle : ℕ → RiskResponse) : ℕ → ℕ → ℚ × ℕ
  | 0, _ => (0, 0)
  | retryCount + 1, attempt =>
    match oracle attempt with
    | RiskResponse.ok q => (q, 0)
    | RiskResponse.rateLimited =>
      let p := fetchRevertRiskScoreGo oracle retryCount (attempt + 1)
      (p.1, 10 + p.2)
    | RiskResponse.err => fetchRevertRiskScoreGo oracle retryCount (attempt + 1)

/-- src/train.ts lines 451-488, `fetchRevertRiskScore`, with its default
`retryCount = 3`, as a function of the endpoint oracle. -/
def fetchRevertRiskScore (oracle : ℕ → RiskResponse) : ℚ × ℕ :=
  fetchRevertRiskScoreGo oracle 3 0

theorem fetchRevertRiskScoreGo_safe (oracle : ℕ → RiskResponse) :
    ∀ retryCount attempt, (fetchRevertRiskScoreGo oracle retryCount attempt).1 = 0
      ∨ ∃ i, attempt ≤ i ∧ i < attempt + retryCount
          ∧ oracle i = RiskResponse.ok (fetchRevertRiskScoreGo oracle retryCount attempt).1 := by
  intro retryCount
  induction retryCount with
  | zero => intro attempt; left; rfl
  | succ rc ih =>
    intro attempt
    cases hora : oracle attempt with
    | ok q =>
      right
      refine ⟨attempt, le_refl _, by omega, ?_⟩
      simp [fetchRevertRiskScoreGo, hora]
    | rateLimited =>
      have hstep : (fetchRevertRiskScoreGo oracle (rc + 1) attempt).1
          = (fetchRevertRiskScoreGo oracle rc (attempt + 1)).1 := by
        simp [fetchRevertRiskScoreGo, hora]
      rcases ih (attempt + 1) with h | ⟨i, hi1, hi2, hi3⟩
      · left; rw [hstep]; exact h
      · right; exact ⟨i, by omega, by omega, by rw [hstep]; exact hi3⟩
    | err =>
      have hstep : (fetchRevertRiskScoreGo oracle (rc + 1) attempt).1
          = (fetchRevertRiskScoreGo oracle rc (attempt + 1)).1 := by
        simp [fetchRevertRiskScoreGo, hora]
      rcases ih (attempt + 1) with h | ⟨i, hi1, hi2, hi3⟩
      · left; rw [hstep]; exact h
      · right; exact ⟨i, by omega, by omega, by rw [hstep]; exact hi3⟩

/-- Counterexample to claim C6 as stated: on three consecutive non-rate-limit
transient failures the function retries immediately — the total wait is 0
seconds, not the claimed fixed 10-second wait between attempts. -/
theorem C6_fetchRevertRiskScore_counterexample :
    fetchRevertRiskScore (fun _ => RiskResponse.err) = (0, 0)
    ∧ (fetchRevertRiskScore (fun _ => RiskResponse.err)).2 < 10 := by
  exact ⟨rfl, by decide⟩

/-- Claim C6 (amended): `fetchRevertRiskScore` never propagates an exception:
it makes up to 3 attempts, waiting 10 seconds after each rate-limited attempt
but retrying immediately after any other transient failure; after exhausting
the attempts it returns the safe default 0.  In particular three consecutive
rate-limit responses yield `(0, 30)` — the default after 3 × 10 s of waiting —
and in general the result is either the default 0 or a score actually
returned by the endpoint within the 3 attempts. -/
theorem C6_fetchRevertRiskScore_policy :
    (∀ oracle, (∀ i, i < 3 → oracle i = RiskResponse.rateLimited) →
        fetchRevertRiskScore oracle = (0, 30))
    ∧ (∀ oracle, (∀ i, i < 3 → oracle i = RiskResponse.err) →
        fetchRevertRiskScore oracle = (0, 0))
    ∧ (∀ oracle, (fetchRevertRiskScore oracle).1 = 0
        ∨ ∃ i, i < 3 ∧ oracle i = RiskResponse.ok (fetchRevertRiskScore oracle).1) := by
  refine ⟨fun oracle h => ?_, fun oracle h => ?_, fun oracle => ?_⟩
  · have h0 := h 0 (by omega)
    have h1 := h 1 (by omega)
    have h2 := h 2 (by omega)
    norm_num [fetchRevertRiskScore, fetchRevertRiskScoreGo, h0, h1, h2]
  · have h0 := h 0 (by omega)
    have h1 := h 1 (by omega)
    have h2 := h 2 (by omega)
    norm_num [fetchRevertRiskScore, fetchRevertRiskScoreGo, h0, h1, h2]
  · have := fetchRevertRiskScoreGo_safe oracle 3 0
    simpa [fetchRevertRiskScore] using this

/-- Witness for C6 at two concrete oracles: an always-rate-limited endpoint
(30 s of waiting, default score) and an always-failing endpoint (no waiting,
default score). -/
theorem C6_fetchRevertRiskScore_policy_witness :
    fetchRevertRiskScore (fun _ => RiskResponse.rateLimited) = (0, 30)
    ∧ fetchRevertRiskScore (fun _ => RiskResponse.err) = (0, 0) :=
  ⟨C6_fetchRevertRiskScore_policy.1 _ (fun _ _ => rfl),
   C6_fetchRevertRiskScore_policy.2.1 _ (fun _ _ => rfl)⟩

/-! ### Retry/rate-limit controller (src/train.ts lines 419-449) -/

/-- What one `fetch(url)` attempt yields: a network-level rejection
(`response` stays `undefined`), or a response with an HTTP status and a body
that either parses as JSON (`some payload`, payloads abstracted as ℕ) or
throws in `response.json()` (`none`). -/
inductive FetchOutcome where
  | netErr
  | resp (status : ℕ) (body : Option ℕ)
deriving DecidableEq, Repr

/-- The errors `fetchWithRetry` can throw: the explicit
"Rate limit exceeded. Maximum retries reached." error, the rethrown network
error, or the rethrown body-parse error. -/
inductive FetchError where
  | rateLimitExceeded
  | netFailure
  | parseFailure
deriving DecidableEq, Repr

/-- The observable state threaded through `fetchWithRetry`: the module-level
memoisation cache (most recent insertion first), the number of `fetch` calls
issued, and the total `setTimeout` wait in seconds. -/
structure FetchState where
  cache : List (String × ℕ)
  fetches : ℕ
  waits : ℕ
deriving DecidableEq, Repr

/-- src/train.ts lines 419-449, `fetchWithRetry`.  A cache hit returns the
stored payload with no fetch.  Otherwise one fetch is issued; if it throws
(network error, or `response.json()` failing to parse) the `catch` block
checks `response.status === 429`: on a rate-limited unparseable response it
waits 10 s and recurses with `retryCount - 1` (throwing `RateLimitExceeded`
when the counter is already 0), on any other failure the original error is
rethrown immediately.  A response whose body parses is cached and returned
REGARDLESS of its status — the 429 branch is inside `catch`, so a
rate-limited response with a parseable body never reaches it. -/
def fetchWithRetryGo (oracle : ℕ → FetchOutcome) (url : String) :
    ℕ → ℕ → FetchState → Except FetchError ℕ × FetchState
  | retryCount, attempt, st =>
    match List.lookup url st.cache with
    | some v => (Except.ok v, st)
    | none =>
      match oracle attempt with
      | FetchOutcome.netErr =>
        (Except.error FetchError.netFailure, ⟨st.cache, st.fetches + 1, st.waits⟩)
      | FetchOutcome.resp _ (some d) =>
        (Except.ok d, ⟨(url, d) :: st.cache, st.fetches + 1, st.waits⟩)
      | FetchOutcome.resp status none =>
        if status = 429 then
          match retryCount with
          | 0 => (Except.error FetchError.rateLimitExceeded,
              ⟨st.cache, st.fetches + 1, st.waits⟩)
          | rc + 1 => fetchWithRetryGo oracle url rc (attempt + 1)
              ⟨st.cache, st.fetches + 1, st.waits + 10⟩
        else (Except.error FetchError.parseFailure,
            ⟨st.cache, st.fetches + 1, st.waits⟩)

/-- `fetchWithRetry` with its default `retryCount = 3`. -/
def fetchWithRetry (oracle : ℕ → FetchOutcome) (url : String) (st : FetchState) :
    Except FetchError ℕ × FetchState :=
  fetchWithRetryGo oracle url 3 0 st

/-- Counterexample to claim C7 as stated: an upstream rate-limit signal (HTTP
429) whose body parses as JSON is NOT retried and raises nothing — the body
is cached and returned as the payload, with a single fetch and no wait. -/
theorem C7_fetchWithRetry_counterexample :
    fetchWithRetry (fun _ => FetchOutcome.resp 429 (some 7)) "u" ⟨[], 0, 0⟩
      = (Except.ok 7, ⟨[("u", 7)], 1, 0⟩) := by
  rfl

/-- Claim C7 (amended): `fetchWithRetry` (a) returns the cached payload with
no new fetch on a cache hit; (b) on rate-limited responses whose bodies fail
to parse it waits 10 s per attempt and retries up to 3 times, raising
`RateLimitExceeded` after the 4th fetch with 30 s waited in total; (c) a
network failure, or a parse failure of a non-429 response, propagates
immediately after a single fetch with no wait; (d) any response whose body
parses is cached and returned as the payload after a single fetch — even a
rate-limited one. -/
theorem C7_fetchWithRetry_policy :
    (∀ oracle url st v, List.lookup url st.cache = some v →
        fetchWithRetry oracle url st = (Except.ok v, st))
    ∧ (∀ oracle url st, List.lookup url st.cache = none →
        (∀ i, i < 4 → oracle i = FetchOutcome.resp 429 none) →
        fetchWithRetry oracle url st
          = (Except.error FetchError.rateLimitExceeded,
             ⟨st.cache, st.fetches + 4, st.waits + 30⟩))
    ∧ (∀ oracle url st, List.lookup url st.cache = none →
        oracle 0 = FetchOutcome.netErr →
        fetchWithRetry oracle url st
          = (Except.error FetchError.netFailure, ⟨st.cache, st.fetches + 1, st.waits⟩))
    ∧ (∀ oracle url st status, List.lookup url st.cache = none → status ≠ 429 →
        oracle 0 = FetchOutcome.resp status none →
        fetchWithRetry oracle url st
          = (Except.error FetchError.parseFailure, ⟨st.cache, st.fetches + 1, st.waits⟩))
    ∧ (∀ oracle url st status d, List.lookup url st.cache = none →
        oracle 0 = FetchOutcome.resp status (some d) →
        fetchWithRetry oracle url st
          = (Except.ok d, ⟨(url, d) :: st.cache, st.fetches + 1, st.waits⟩)) := by
  refine ⟨fun oracle url st v hc => ?_, fun oracle url st hc h429 => ?_,
    fun oracle url st hc h0 => ?_, fun oracle url st status hc hs h0 => ?_,
    fun oracle url st status d hc h0 => ?_⟩
  · simp [fetchWithRetry, fetchWithRetryGo, hc]
  · have h0 := h429 0 (by omega)
    have h1 := h429 1 (by omega)
    have h2 := h429 2 (by omega)
    have h3 := h429 3 (by omega)
    simp only [fetchWithRetry, fetchWithRetryGo, hc, h0, h1, h2, h3]
    norm_num
  · simp [fetchWithRetry, fetchWithRetryGo, hc, h0]
  · simp [fetchWithRetry, fetchWithRetryGo, hc, h0, hs]
  · simp [fetchWithRetry, fetchWithRetryGo, hc, h0]

/-- Witness for C7: a cache hit returns the stored payload without fetching,
and four consecutive unparseable 429 responses exhaust the retries. -/
theorem C7_fetchWithRetry_policy_witness :
    fetchWithRetry (fun _ => FetchOutcome.netErr) "u" ⟨[("u", 5)], 0, 0⟩
      = (Except.ok 5, ⟨[("u", 5)], 0, 0⟩)
    ∧ fetchWithRetry (fun _ => FetchOutcome.resp 429 none) "u" ⟨[], 0, 0⟩
      = (Except.error FetchError.rateLimitExceeded, ⟨[], 4, 30⟩) :=
  ⟨C7_fetchWithRetry_policy.1 _ "u" ⟨[("u", 5)], 0, 0⟩ 5 rfl,
   C7_fetchWithRetry_policy.2.1 _ "u" ⟨[], 0, 0⟩ rfl (fun _ _ => rfl)⟩

/-! ### Diff retriever (src/train.ts lines 547-568) -/

/-- Pattern-prefix test on character lists (the anchored step of a literal
regex search). -/
def leadsWith : List Char → List Char → Bool
  | [], _ => true
  | _ :: _, [] => false
  | p :: ps, c :: cs => p == c && leadsWith ps cs

/-- Number of non-overlapping left-to-right occurrences of `pat`; `fuel`
bounds the scan (use `s.length`). -/
def countOccAux (pat : List Char) : ℕ → List Char → ℕ
  | 0, _ => 0
  | _ + 1, [] => 0
  | fuel + 1, c :: rest =>
    if leadsWith pat (c :: rest) then 1 + countOccAux pat fuel ((c :: rest).drop pat.length)
    else countOccAux pat fuel rest

/-- The length of `(s.match(/pat/g) || [])` for the literal pattern `pat`. -/
def countOcc (pat s : List Char) : ℕ := countOccAux pat s.length s

/-- Split at the first occurrence of `pat`: `some (before, after)`, or `none`
when `pat` does not occur (a failing regex search). -/
def splitFirst (pat : List Char) : List Char → Option (List Char × List Char)
  | [] => none
  | c :: rest =>
    if leadsWith pat (c :: rest) then some ([], (c :: rest).drop pat.length)
    else (splitFirst pat rest).map (fun pr => (c :: pr.1, pr.2))

/-- `pat` occurs nowhere in `s`. -/
def noOccur (pat s : List Char) : Prop := ∀ x y, s ≠ x ++ pat ++ y

def preOpen : List Char := ['<', 'p', 'r', 'e', '>']

def preClose : List Char := ['<', '/', 'p', 'r', 'e', '>']

/-- The failures of `fetchDiffFromRevId`: the "Unexpected API response
structure" error (no `compare` object), the "Unexpected diff format" error
(open-tag count different from 1), and the `TypeError` of the non-null
assertion on the extraction regex when it finds no complete block. -/
inductive DiffError where
  | unexpectedStructure
  | unexpectedFormat
  | nullAssertion
deriving DecidableEq, Repr

/-- src/train.ts lines 547-568, `fetchDiffFromRevId`, as a function of the
`data.compare` payload text (`none` = missing `compare` object).  Validates
that exactly one open tag `"<pre>"` occurs, then extracts the text between
that tag and the first subsequent `"</pre>"`; when no `"</pre>"` follows, the
extraction regex yields `null` and the non-null assertion throws. -/
def fetchDiffFromRevId (payload : Option (List Char)) : Except DiffError (List Char) :=
  match payload with
  | none => Except.error DiffError.unexpectedStructure
  | some diffText =>
    if countOcc preOpen diffText ≠ 1 then Except.error DiffError.unexpectedFormat
    else
      match splitFirst preOpen diffText with
      | none => Except.error DiffError.nullAssertion
      | some pr =>
        match splitFirst preClose pr.2 with
        | none => Except.error DiffError.nullAssertion
        | some inner => Except.ok inner.1

theorem leadsWith_iff (pat : List Char) :
    ∀ s : List Char, leadsWith pat s = true ↔ ∃ t, s = pat ++ t := by
  induction pat with
  | nil => intro s; simp [leadsWith]
  | cons p ps ih =>
    intro s
    cases s with
    | nil => simp [leadsWith]
    | cons c cs =>
      simp only [leadsWith, Bool.and_eq_true, beq_iff_eq, ih cs, List.cons_append,
        List.cons.injEq]
      constructor
      · rintro ⟨hpc, t, ht⟩
        exact ⟨t, hpc.symm, ht⟩
      · rintro ⟨t, hc, ht⟩
        exact ⟨hc.symm, t, ht⟩

theorem noOccur_nil (pat : List Char) (hpat : pat ≠ []) : noOccur pat [] := by
  intro x y h
  have hlen := congrArg List.length h
  simp only [List.length_nil, List.length_append] at hlen
  exact hpat (List.length_eq_zero.mp (by omega))

theorem splitFirst_some (pat : List Char) (hpat : pat ≠ []) :
    ∀ s a b : List Char, splitFirst pat s = some (a, b) →
      s = a ++ pat ++ b ∧ noOccur pat a := by
  intro s
  induction s with
  | nil => intro a b h; simp [splitFirst] at h
  | cons c rest ih =>
    intro a b h
    by_cases hl : leadsWith pat (c :: rest) = true
    · simp only [splitFirst, if_pos hl, Option.some.injEq, Prod.mk.injEq] at h
      obtain ⟨ha, hb⟩ := h
      obtain ⟨t, ht⟩ := (leadsWith_iff pat (c :: rest)).mp hl
      subst ha
      rw [ht] at hb ⊢
      rw [List.drop_left] at hb
      subst hb
      exact ⟨by simp, noOccur_nil pat hpat⟩
    · simp only [splitFirst, if_neg hl] at h
      cases hsp : splitFirst pat rest with
      | none => rw [hsp] at h; simp at h
      | some pr =>
        rw [hsp] at h
        simp only [Option.map_some', Option.some.injEq, Prod.mk.injEq] at h
        obtain ⟨ha, hb⟩ := h
        obtain ⟨hrest, hno⟩ := ih pr.1 pr.2 hsp
        subst ha
        subst hb
        refine ⟨by simp [hrest], ?_⟩
        intro x y hxy
        cases x with
        | nil =>
          apply hl
          rw [leadsWith_iff]
          simp only [List.nil_append] at hxy
          refine ⟨y ++ (pat ++ pr.2), ?_⟩
          have hcr : (c :: rest : List Char) = (c :: pr.1) ++ (pat ++ pr.2) := by
            simp [hrest]
          rw [hcr, hxy, List.append_assoc]
        | cons cx x2 =>
          simp only [List.cons_append, List.cons.injEq] at hxy
          exact hno x2 y hxy.2

theorem splitFirst_none (pat : List Char) (hpat : pat ≠ []) :
    ∀ s : List Char, splitFirst pat s = none → noOccur pat s := by
  intro s
  induction s with
  | nil => intro _; exact noOccur_nil pat hpat
  | cons c rest ih =>
    intro h x y hxy
    by_cases hl : leadsWith pat (c :: rest) = true
    · simp only [splitFirst, if_pos hl] at h
      exact Option.noConfusion h
    · simp only [splitFirst, if_neg hl] at h
      cases hsp : splitFirst pat rest with
      | some pr => rw [hsp] at h; simp at h
      | none =>
        cases x with
        | nil =>
          apply hl
          rw [leadsWith_iff]
          exact ⟨y, by simpa using hxy⟩
        | cons cx x2 =>
          simp only [List.cons_append, List.cons.injEq] at hxy
          exact ih hsp x2 y hxy.2

theorem countOccAux_zero_of_none (pat : List Char) :
    ∀ fuel s, splitFirst pat s = none → countOccAux pat fuel s = 0 := by
  intro fuel
  induction fuel with
  | zero => intro s _; rfl
  | succ f ih =>
    intro s hsp
    cases s with
    | nil => rfl
    | cons c rest =>
      by_cases hl : leadsWith pat (c :: rest) = true
      · simp only [splitFirst, if_pos hl] at hsp
        exact Option.noConfusion hsp
      · simp only [splitFirst, if_neg hl] at hsp
        cases hsp2 : splitFirst pat rest with
        | some pr => rw [hsp2] at hsp; simp at hsp
        | none =>
          simp only [countOccAux, if_neg hl]
          exact ih rest hsp2

theorem splitFirst_ne_none_of_countOcc (pat s : List Char)
    (h : countOcc pat s = 1) : splitFirst pat s ≠ none := by
  intro hn
  rw [countOcc, countOccAux_zero_of_none pat s.length s hn] at h
  exact absurd h (by omega)

/-- Counterexample to claim C8 as stated: the payload `"<pre>abc"` contains
exactly one open tag (so the validation accepts it), yet extraction does not
succeed with an inner text — the missing `"</pre>"` makes the regex return
`null` and the non-null assertion throw a `TypeError` (not the
unexpected-format error). -/
theorem C8_fetchDiffFromRevId_counterexample :
    countOcc preOpen ("<pre>abc".toList) = 1
    ∧ fetchDiffFromRevId (some ("<pre>abc".toList))
        = Except.error DiffError.nullAssertion := by
  constructor
  · decide
  · rfl

/-- Claim C8 (amended): `fetchDiffFromRevId` fails with the unexpected-format
error exactly when the number of `"<pre>"` occurrences differs from 1.  With
exactly one occurrence: if a `"</pre>"` follows it, the call succeeds and the
returned text is verbatim the text strictly between that `"<pre>"` and the
first subsequent `"</pre>"`; if no `"</pre>"` follows, the call fails with
the null-assertion `TypeError` instead of succeeding — so success is NOT
equivalent to the presence of exactly one block.  A missing payload fails
with the unexpected-structure error. -/
theorem C8_fetchDiffFromRevId_policy :
    (∀ s : List Char, countOcc preOpen s ≠ 1 →
        fetchDiffFromRevId (some s) = Except.error DiffError.unexpectedFormat)
    ∧ (∀ s inner : List Char, fetchDiffFromRevId (some s) = Except.ok inner →
        countOcc preOpen s = 1
        ∧ ∃ a c, s = a ++ preOpen ++ inner ++ preClose ++ c
            ∧ noOccur preOpen a ∧ noOccur preClose inner)
    ∧ (∀ s : List Char, countOcc preOpen s = 1 →
        fetchDiffFromRevId (some s) = Except.error DiffError.nullAssertion →
        ∃ a b, s = a ++ preOpen ++ b ∧ noOccur preOpen a ∧ noOccur preClose b)
    ∧ fetchDiffFromRevId none = Except.error DiffError.unexpectedStructure := by
  have hopen : preOpen ≠ [] := by simp [preOpen]
  have hclose : preClose ≠ [] := by simp [preClose]
  refine ⟨fun s h => ?_, fun s inner h => ?_, fun s hc herr => ?_, rfl⟩
  · simp [fetchDiffFromRevId, h]
  · by_cases hc : countOcc preOpen s = 1
    · refine ⟨hc, ?_⟩
      simp only [fetchDiffFromRevId, hc, ne_eq, not_true_eq_false, if_false, ite_false] at h
      cases hsp : splitFirst preOpen s with
      | none => simp only [hsp] at h; exact Except.noConfusion h
      | some pr =>
        simp only [hsp] at h
        cases hsp2 : splitFirst preClose pr.2 with
        | none => simp only [hsp2] at h; exact Except.noConfusion h
        | some pr2 =>
          simp only [hsp2] at h
          simp only [Except.ok.injEq] at h
          obtain ⟨hs1, hno1⟩ := splitFirst_some preOpen hopen s pr.1 pr.2 hsp
          obtain ⟨hs2, hno2⟩ := splitFirst_some preClose hclose pr.2 pr2.1 pr2.2 hsp2
          refine ⟨pr.1, pr2.2, ?_, hno1, ?_⟩
          · rw [hs1, hs2, ← h]
            simp [List.append_assoc]
          · rw [← h]
            exact hno2
    · exact absurd h (by simp [fetchDiffFromRevId, hc])
  · simp only [fetchDiffFromRevId, hc, ne_eq, not_true_eq_false, if_false, ite_false] at herr
    cases hsp : splitFirst preOpen s with
    | none => exact absurd hsp (splitFirst_ne_none_of_countOcc preOpen s hc)
    | some pr =>
      simp only [hsp] at herr
      obtain ⟨hs1, hno1⟩ := splitFirst_some preOpen hopen s pr.1 pr.2 hsp
      cases hsp2 : splitFirst preClose pr.2 with
      | some pr2 => simp only [hsp2] at herr; exact Except.noConfusion herr
      | none =>
        have hno2 := splitFirst_none preClose hclose pr.2 hsp2
        exact ⟨pr.1, pr.2, hs1, hno1, hno2⟩

/-- Witness for C8: on `"x<pre>hi</pre>y"` extraction succeeds with exactly
the inner text `"hi"`, and the decomposition guaranteed by the policy
theorem holds. -/
theorem C8_fetchDiffFromRevId_policy_witness :
    fetchDiffFromRevId (some ("x<pre>hi</pre>y".toList)) = Except.ok ("hi".toList)
    ∧ (countOcc preOpen ("x<pre>hi</pre>y".toList) = 1
       ∧ ∃ a c, "x<pre>hi</pre>y".toList = a ++ preOpen ++ "hi".toList ++ preClose ++ c
           ∧ noOccur preOpen a ∧ noOccur preClose ("hi".toList)) := by
  have hok : fetchDiffFromRevId (some ("x<pre>hi</pre>y".toList))
      = Except.ok ("hi".toList) := rfl
  exact ⟨hok, C8_fetchDiffFromRevId_policy.2.1 _ _ hok⟩

/-! ### Batch processing (`doInBatches`, unnamed CLI module lines 25-39) -/

/-- The loop of `doInBatches`: each iteration takes `ts.slice(i, i + b)`,
maps `fn` over it (`Promise.all` keeps batch order), awaits the whole batch,
and appends the results.  `fuel` bounds the iteration count (instantiated
with `ts.length`; each iteration consumes at least one element when the
batch size is positive — with batch size 0 the source loop never advances,
which no caller exercises). -/
def doInBatchesGo {α β : Type} (fn : α → β) (maxBatchSize : ℕ) : ℕ → List α → List β
  | 0, _ => []
  | _ + 1, [] => []
  | fuel + 1, t :: rest =>
    ((t :: rest).take maxBatchSize).map fn
      ++ doInBatchesGo fn maxBatchSize fuel ((t :: rest).drop maxBatchSize)

/-- `doInBatches(fn, maxBatchSize, ts)` of the unnamed CLI module. -/
def doInBatches {α β : Type} (fn : α → β) (maxBatchSize : ℕ) (ts : List α) : List β :=
  doInBatchesGo fn maxBatchSize ts.length ts

/-- The successive `ts.slice(i, i + maxBatchSize)` batches the loop issues. -/
def batchesGo {α : Type} (maxBatchSize : ℕ) : ℕ → List α → List (List α)
  | 0, _ => []
  | _ + 1, [] => []
  | fuel + 1, t :: rest =>
    (t :: rest).take maxBatchSize
      :: batchesGo maxBatchSize fuel ((t :: rest).drop maxBatchSize)

/-- The list of batches `doInBatches` processes. -/
def batches {α : Type} (maxBatchSize : ℕ) (ts : List α) : List (List α) :=
  batchesGo maxBatchSize ts.length ts

theorem batchesGo_nil {α : Type} (b : ℕ) (fuel : ℕ) :
    batchesGo (α := α) b fuel [] = [] := by
  cases fuel <;> rfl

theorem doInBatchesGo_eq_map {α β : Type} (fn : α → β) (b : ℕ) (hb : 0 < b) :
    ∀ fuel ts, ts.length ≤ fuel → doInBatchesGo fn b fuel ts = ts.map fn := by
  intro fuel
  induction fuel with
  | zero =>
    intro ts h
    have : ts = [] := List.length_eq_zero.mp (by omega)
    subst this
    rfl
  | succ f ih =>
    intro ts h
    cases ts with
    | nil => rfl
    | cons t rest =>
      have hdrop : ((t :: rest).drop b).length ≤ f := by
        simp only [List.length_drop, List.length_cons] at *
        omega
      simp only [doInBatchesGo, ih _ hdrop, ← List.map_append, List.take_append_drop]

theorem doInBatchesGo_eq_flatten {α β : Type} (fn : α → β) (b : ℕ) :
    ∀ fuel ts, doInBatchesGo fn b fuel ts
      = ((batchesGo b fuel ts).map (fun l => l.map fn)).flatten := by
  intro fuel
  induction fuel with
  | zero => intro ts; rfl
  | succ f ih =>
    intro ts
    cases ts with
    | nil => rfl
    | cons t rest =>
      simp only [doInBatchesGo, batchesGo, List.map_cons, List.flatten_cons, ih]

/-- Ceiling-division recurrence used by the batch-count proof. -/
theorem ceilDiv_step (b n : ℕ) (hb : 0 < b) (hn : 0 < n) :
    (n + b - 1) / b = (n - b + b - 1) / b + 1 := by
  rcases le_or_lt n b with hle | hlt
  · have h0 : n - b = 0 := by omega
    rw [h0]
    have h1 : (0 + b - 1) / b = 0 := Nat.div_eq_of_lt (by omega)
    rw [h1]
    have h2 : 1 * b ≤ n + b - 1 := by omega
    have h3 : n + b - 1 < (1 + 1) * b := by omega
    rw [Nat.div_eq_of_lt_le h2 h3]
  · have h0 : n - b + b - 1 = n - 1 := by omega
    have h1 : n + b - 1 = n - 1 + b := by omega
    rw [h0, h1, Nat.add_div_right _ hb]

theorem batchesGo_length {α : Type} (b : ℕ) (hb : 0 < b) :
    ∀ fuel (ts : List α), ts.length ≤ fuel →
      (batchesGo b fuel ts).length = (ts.length + b - 1) / b := by
  intro fuel
  induction fuel with
  | zero =>
    intro ts h
    have hts : ts = [] := List.length_eq_zero.mp (by omega)
    subst hts
    rw [batchesGo_nil, List.length_nil, List.length_nil, Nat.div_eq_of_lt (by omega)]
  | succ f ih =>
    intro ts h
    cases ts with
    | nil => rw [batchesGo_nil, List.length_nil, List.length_nil, Nat.div_eq_of_lt (by omega)]
    | cons t rest =>
      have hdrop : ((t :: rest).drop b).length ≤ f := by
        simp only [List.length_drop, List.length_cons] at *
        omega
      simp only [batchesGo, List.length_cons, ih _ hdrop, List.length_drop]
      rw [ceilDiv_step b (rest.length + 1) hb (by omega)]

theorem batchesGo_sizes {α : Type} (b : ℕ) (hb : 0 < b) :
    ∀ fuel (ts : List α), ts.length ≤ fuel →
      ∀ l ∈ batchesGo b fuel ts, 0 < l.length ∧ l.length ≤ b := by
  intro fuel
  induction fuel with
  | zero =>
    intro ts h
    have : ts = [] := List.length_eq_zero.mp (by omega)
    subst this
    simp [batchesGo_nil]
  | succ f ih =>
    intro ts h l hl
    cases ts with
    | nil => simp [batchesGo_nil] at hl
    | cons t rest =>
      simp only [batchesGo, List.mem_cons] at hl
      rcases hl with hl | hl
      · subst hl
        constructor
        · simp only [List.length_take, List.length_cons]
          omega
        · simp only [List.length_take]
          omega
      · have hdrop : ((t :: rest).drop b).length ≤ f := by
          simp only [List.length_drop, List.length_cons] at *
          omega
        exact ih _ hdrop l hl

theorem batchesGo_dropLast {α : Type} (b : ℕ) (hb : 0 < b) :
    ∀ fuel (ts : List α), ts.length ≤ fuel →
      ∀ l ∈ (batchesGo b fuel ts).dropLast, l.length = b := by
  intro fuel
  induction fuel with
  | zero =>
    intro ts h
    have : ts = [] := List.length_eq_zero.mp (by omega)
    subst this
    simp [batchesGo_nil]
  | succ f ih =>
    intro ts h l hl
    cases ts with
    | nil => simp [batchesGo_nil] at hl
    | cons t rest =>
      simp only [batchesGo] at hl
      cases hd : (t :: rest).drop b with
      | nil =>
        rw [hd, batchesGo_nil] at hl
        simp at hl
      | cons d ds =>
        have hlen : b < (t :: rest).length := by
          have := congrArg List.length hd
          simp only [List.length_drop, List.length_cons] at *
          omega
        have hfuel : (d :: ds).length ≤ f := by
          have := congrArg List.length hd
          simp only [List.length_drop, List.length_cons] at *
          omega
        have hne : batchesGo b f (d :: ds) ≠ [] := by
          cases f with
          | zero => simp at hfuel
          | succ f2 => simp [batchesGo]
        rw [hd, List.dropLast_cons_of_ne_nil hne, List.mem_cons] at hl
        rcases hl with hl | hl
        · subst hl
          simp only [List.length_take]
          omega
        · exact ih _ (hd ▸ hfuel) l (hd ▸ hl)

/-- Claim C10: for every batch size `b > 0`, `doInBatches fn b ts` issues
exactly `⌈|ts|/b⌉` batches, every batch except possibly the last has size
exactly `b` (all are non-empty and of size at most `b`), the flattened
result is exactly the batches' results in order, the output equals
`ts.map fn` — same length, element `i` is `fn ts[i]` — and concretely 12
inputs with batch size 5 give exactly 3 batches of sizes 5, 5, 2. -/
theorem C10_doInBatches_spec {α β : Type} (fn : α → β) (b : ℕ) (ts : List α)
    (hb : 0 < b) :
    doInBatches fn b ts = ts.map fn
    ∧ (doInBatches fn b ts).length = ts.length
    ∧ doInBatches fn b ts = ((batches b ts).map (fun l => l.map fn)).flatten
    ∧ (batches b ts).length = (ts.length + b - 1) / b
    ∧ (∀ l ∈ (batches b ts).dropLast, l.length = b)
    ∧ (∀ l ∈ batches b ts, 0 < l.length ∧ l.length ≤ b)
    ∧ (batches 5 (List.range 12)).map List.length = [5, 5, 2] := by
  refine ⟨doInBatchesGo_eq_map fn b hb ts.length ts le_rfl, ?_,
    doInBatchesGo_eq_flatten fn b ts.length ts,
    batchesGo_length b hb ts.length ts le_rfl,
    batchesGo_dropLast b hb ts.length ts le_rfl,
    batchesGo_sizes b hb ts.length ts le_rfl, ?_⟩
  · simp only [doInBatches, doInBatchesGo_eq_map fn b hb ts.length ts le_rfl,
      List.length_map]
  · decide

/-- Witness for C10 at `fn = Nat.succ`, batch size 5, inputs `0..11`. -/
theorem C10_doInBatches_spec_witness :
    doInBatches Nat.succ 5 (List.range 12) = (List.range 12).map Nat.succ
    ∧ (batches 5 (List.range 12)).map List.length = [5, 5, 2] :=
  ⟨(C10_doInBatches_spec Nat.succ 5 (List.range 12) (by omega)).1,
   (C10_doInBatches_spec Nat.succ 5 (List.range 12) (by omega)).2.2.2.2.2.2⟩

end Npov
